import Mathlib

/-!
# Verification of the `filestore` upload protocol and path helpers

Shallow embedding of the Go package `github.com/USACE/filestore`
(files `filestore.go`, `filesystemstore.go`, `s3store.go`).

Modelling conventions:

* Go byte slices are `List Nat`; Go `int64` values are `Int` (the claims under
  study never exercise two's-complement wrap-around, so arithmetic is exact);
  Go strings are Lean `String`s manipulated through their `List Char` data.
* The local filesystem visible to the block store is a `GoFS` record: a partial
  map from path to file bytes plus the set of existing directories.  The OS
  primitives whose internals no claim depends on (directory creation
  `os.MkdirAll`, `filepath.Dir`, the MD5 digest, `uuid.New`) are taken as
  function parameters: they are external collaborators of the package.
* The object-store (S3) operations are modelled by the request value the code
  hands to the AWS SDK; the network call itself is an external collaborator.
* Fallible operations return an `Option GoError` component, `none` meaning the
  Go function returned a `nil` error.
-/

namespace Filestore

/-- Errors surfaced by the modelled operations (`*os.PathError`,
`WriteAt` with a negative offset, the factory's configuration error). -/
inductive GoError where
  | pathError (op : String) (path : String)
  | negativeOffset
  | invalidConfig (msg : String)
deriving DecidableEq, Repr

/-- `type PATHTYPE int` with the two constants `FILE` and `FOLDER`
(filestore.go:17-22). -/
inductive PATHTYPE where
  | FILE
  | FOLDER
deriving DecidableEq, Repr

/-- `var chunkSize int64 = 10 * 1024 * 1024` (filestore.go:24). -/
def chunkSize : Int := 10 * 1024 * 1024

/-- `type FileOperationOutput struct { Md5 string }` (filestore.go:26-28). -/
structure FileOperationOutput where
  Md5 : String
deriving DecidableEq, Repr

/-- `type UploadConfig struct` (filestore.go:41-51): the per-chunk request of
the upload protocol. -/
structure UploadConfig where
  ObjectPath : String
  ChunkId : Int
  UploadId : String
  Data : List Nat
deriving DecidableEq, Repr

/-- `type CompletedObjectUploadConfig struct` (filestore.go:53-61): the
completion manifest. -/
structure CompletedObjectUploadConfig where
  UploadId : String
  ObjectPath : String
  ChunkUploadIds : List String
deriving DecidableEq, Repr

/-- `type UploadResult struct` (filestore.go:63-67). -/
structure UploadResult where
  ID : String
  WriteSize : Nat
  IsComplete : Bool
deriving DecidableEq, Repr

/-! ## Path helpers (filestore.go:121-154) -/

/-- Go `strings.ReplaceAll(path, "..", "")` specialised to the pattern `".."`:
scan left to right, delete each non-overlapping occurrence of two consecutive
dots, and continue scanning after the deleted occurrence. -/
def replaceDotDot : List Char → List Char
  | c1 :: c2 :: rest =>
    if c1 == '.' && c2 == '.' then replaceDotDot rest
    else c1 :: replaceDotDot (c2 :: rest)
  | l => l

/-- `func sanitizePath(path string) string` (filestore.go:135-137):
`strings.ReplaceAll(path, "..", "")`. -/
def sanitizePath (path : String) : String :=
  String.mk (replaceDotDot path.data)

/-- Go `strings.ReplaceAll(p, "//", "/")`: scan left to right, replace each
non-overlapping occurrence of two consecutive slashes by one slash. -/
def replaceSlashSlash : List Char → List Char
  | c1 :: c2 :: rest =>
    if c1 == '/' && c2 == '/' then '/' :: replaceSlashSlash rest
    else c1 :: replaceSlashSlash (c2 :: rest)
  | l => l

/-- Go `strings.Trim(s, "/")`: remove every leading and trailing slash. -/
def trimSlashes (l : List Char) : List Char :=
  ((l.dropWhile (· == '/')).reverse.dropWhile (· == '/')).reverse

/-- The per-part normalisation inside `buildUrl`'s loop (filestore.go:144):
`strings.Trim(strings.ReplaceAll(p, "//", "/"), "/")`. -/
def cleanUrlPart (p : String) : String :=
  String.mk (trimSlashes (replaceSlashSlash p.data))

/-- `func buildUrl(urlparts []string, pathType PATHTYPE) string`
(filestore.go:140-154): join the cleaned nonempty parts with leading slashes,
append a trailing slash for `FOLDER`, then `sanitizePath` the result. -/
def buildUrl (urlparts : List String) (pathType : PATHTYPE) : String :=
  let body := urlparts.foldl
    (fun b p =>
      let q := cleanUrlPart p
      if q = "" then b else b ++ "/" ++ q) ""
  sanitizePath (if pathType = PATHTYPE.FOLDER then body ++ "/" else body)

/-- `type PathParts struct { Parts []string }` (filestore.go:121-123). -/
structure PathParts where
  Parts : List String
deriving DecidableEq, Repr

/-- `func (pp PathParts) ToPath(additionalParts ...string) string`
(filestore.go:125-128). -/
def PathParts.ToPath (pp : PathParts) (additionalParts : List String) : String :=
  buildUrl (pp.Parts ++ additionalParts) PATHTYPE.FOLDER

/-- `func (pp PathParts) ToFilePath(additionalParts ...string) string`
(filestore.go:130-133). -/
def PathParts.ToFilePath (pp : PathParts) (additionalParts : List String) : String :=
  buildUrl (pp.Parts ++ additionalParts) PATHTYPE.FILE

/-- Decidable check for the presence of two consecutive dots (the substring
`".."`) in a character list. -/
def hasDD : List Char → Bool
  | c1 :: c2 :: rest => (c1 == '.' && c2 == '.') || hasDD (c2 :: rest)
  | _ => false

lemma hasDD_cons_of_ne {c : Char} (h : c ≠ '.') (l : List Char) :
    hasDD (c :: l) = hasDD l := by
  cases l with
  | nil => simp [hasDD]
  | cons c2 rest =>
    simp only [hasDD, Bool.or_eq_false_iff]
    have : (c == '.') = false := by simpa using h
    simp [this]

/-- A list of the shape `a ++ ".." ++ b` always triggers `hasDD`. -/
lemma hasDD_append_dotdot (a b : List Char) :
    hasDD (a ++ '.' :: '.' :: b) = true := by
  induction a with
  | nil => simp [hasDD]
  | cons x a' ih =>
    cases a' with
    | nil =>
      simp [hasDD]
    | cons y a'' =>
      simp only [List.cons_append, hasDD] at ih ⊢
      simp [ih]

/-- `hasDD l = false` means exactly that `".."` does not occur in `l`. -/
lemma hasDD_eq_false_means_no_dotdot {l : List Char} (h : hasDD l = false) :
    ∀ a b, l ≠ a ++ '.' :: '.' :: b := by
  intro a b heq
  rw [heq, hasDD_append_dotdot] at h
  cases h

lemma replaceDotDot_cons_of_ne {c : Char} (h : c ≠ '.') (l : List Char) :
    replaceDotDot (c :: l) = c :: replaceDotDot l := by
  cases l with
  | nil => simp [replaceDotDot]
  | cons c2 rest =>
    have hc : (c == '.') = false := by simpa using h
    simp [replaceDotDot, hc]

lemma replaceDotDot_cons_cons_of_snd_ne {c2 : Char} (h2 : c2 ≠ '.')
    (c1 : Char) (rest : List Char) :
    replaceDotDot (c1 :: c2 :: rest) = c1 :: replaceDotDot (c2 :: rest) := by
  have hc2 : (c2 == '.') = false := by simpa using h2
  simp [replaceDotDot, hc2]

/-- Core sanitization fact: after `strings.ReplaceAll(s, "..", "")` no two
consecutive dots remain (dots brought together by a deletion always formed an
even run that is deleted wholesale by the left-to-right scan). -/
lemma hasDD_replaceDotDot (l : List Char) : hasDD (replaceDotDot l) = false := by
  have H : ∀ n (l : List Char), l.length ≤ n → hasDD (replaceDotDot l) = false := by
    intro n
    induction n with
    | zero =>
      intro l hl
      have : l = [] := List.length_eq_zero.mp (Nat.le_zero.mp hl)
      subst this
      simp [replaceDotDot, hasDD]
    | succ n ih =>
      intro l hl
      match l with
      | [] => simp [replaceDotDot, hasDD]
      | [c] => simp [replaceDotDot, hasDD]
      | c1 :: c2 :: rest =>
        by_cases h1 : c1 = '.'
        · by_cases h2 : c2 = '.'
          · subst h1; subst h2
            have hr : rest.length ≤ n := by
              simp only [List.length_cons] at hl; omega
            simpa [replaceDotDot] using ih rest hr
          · -- c1 = '.', c2 ≠ '.': the head dot survives but is followed by c2
            subst h1
            have hc2 : (c2 == '.') = false := by simpa using h2
            have hr : (c2 :: rest).length ≤ n := by
              simp only [List.length_cons] at hl ⊢; omega
            have ihr := ih (c2 :: rest) hr
            rw [replaceDotDot_cons_of_ne h2 rest] at ihr
            rw [replaceDotDot_cons_cons_of_snd_ne h2, replaceDotDot_cons_of_ne h2 rest]
            simp only [hasDD, hc2, Bool.and_false, Bool.false_or]
            exact ihr
        · have hr : (c2 :: rest).length ≤ n := by
            simp only [List.length_cons] at hl ⊢; omega
          rw [replaceDotDot_cons_of_ne h1 (c2 :: rest), hasDD_cons_of_ne h1]
          exact ih (c2 :: rest) hr
  exact H l.length l (Nat.le_refl _)

/-! ## The local filesystem model used by the block store -/

/-- The state of the local filesystem as seen by `BlockFS`: a partial map
from path to file bytes, plus the set of existing directories. -/
structure GoFS where
  files : String → Option (List Nat)
  dirs : List String

/-- POSIX positional write (`os.File.WriteAt` at a nonnegative offset `o`):
bytes before `o` are preserved, the file is zero-padded up to `o` if it is
shorter (sparse-write semantics), the data overwrites `[o, o + |d|)`, and any
original bytes past the written range are preserved. -/
def writeAt (f : List Nat) (o : Nat) (d : List Nat) : List Nat :=
  f.take o ++ List.replicate (o - f.length) 0 ++ d ++ f.drop (o + d.length)

lemma length_writeAt (f : List Nat) (o : Nat) (d : List Nat) :
    (writeAt f o d).length = max f.length (o + d.length) := by
  simp only [writeAt, List.length_append, List.length_take, List.length_replicate,
    List.length_drop]
  omega

lemma getD_append_split (xs ys : List Nat) (j : Nat) (v : Nat) :
    (xs ++ ys).getD j v = if j < xs.length then xs.getD j v else ys.getD (j - xs.length) v := by
  induction xs generalizing j with
  | nil => simp
  | cons x xs ih =>
    cases j with
    | zero => simp
    | succ j =>
      simp only [List.cons_append, List.getD_cons_succ, List.length_cons, ih]
      by_cases h : j < xs.length
      · rw [if_pos h, if_pos (by omega)]
      · rw [if_neg h, if_neg (by omega)]
        congr 1
        omega

lemma getD_replicate_self (n j v : Nat) : (List.replicate n v).getD j v = v := by
  induction n generalizing j with
  | zero => simp
  | succ n ih =>
    cases j with
    | zero => simp [List.replicate]
    | succ j =>
      rw [show List.replicate (n+1) v = v :: List.replicate n v from rfl, List.getD_cons_succ]
      exact ih j

lemma getD_take_of_lt (f : List Nat) {o j : Nat} (h : j < o) (v : Nat) :
    (f.take o).getD j v = f.getD j v := by
  induction f generalizing o j with
  | nil => simp
  | cons x f ih =>
    cases o with
    | zero => omega
    | succ o =>
      cases j with
      | zero => simp
      | succ j => simpa using ih (by omega)

lemma getD_drop (f : List Nat) (m j v : Nat) :
    (f.drop m).getD j v = f.getD (m + j) v := by
  induction f generalizing m with
  | nil => simp
  | cons x f ih =>
    cases m with
    | zero => simp
    | succ m =>
      rw [List.drop_succ_cons, ih m, Nat.succ_add, List.getD_cons_succ]

lemma getD_eq_default_of_le (f : List Nat) {j : Nat} (h : f.length ≤ j) (v : Nat) :
    f.getD j v = v := by
  induction f generalizing j with
  | nil => simp
  | cons x f ih =>
    cases j with
    | zero => simp at h
    | succ j => simpa using ih (by simpa using h)

/-- Pointwise description of `writeAt` (reading with default byte 0):
positions inside the written range come from `d`, every other position keeps
the old value (0 past the old end of file). -/
lemma getD_writeAt (f : List Nat) (o : Nat) (d : List Nat) (j : Nat) :
    (writeAt f o d).getD j 0 =
      if o ≤ j ∧ j < o + d.length then d.getD (j - o) 0 else f.getD j 0 := by
  have hsplit : writeAt f o d
      = (f.take o ++ List.replicate (o - f.length) 0) ++ (d ++ f.drop (o + d.length)) := by
    simp [writeAt]
  have hlen : (f.take o ++ List.replicate (o - f.length) 0).length = o := by
    simp only [List.length_append, List.length_take, List.length_replicate]
    omega
  rw [hsplit, getD_append_split, hlen]
  by_cases hjo : j < o
  · rw [if_pos hjo, if_neg (by omega)]
    rw [getD_append_split]
    by_cases hjf : j < (f.take o).length
    · rw [if_pos hjf]
      exact getD_take_of_lt f hjo 0
    · rw [if_neg hjf]
      have hjlen : f.length ≤ j := by
        simp only [List.length_take] at hjf
        omega
      rw [getD_replicate_self, getD_eq_default_of_le f hjlen]
  · rw [if_neg hjo]
    rw [getD_append_split]
    by_cases hjd : j - o < d.length
    · rw [if_pos hjd, if_pos (by omega)]
    · rw [if_neg hjd, if_neg (by omega)]
      rw [getD_drop]
      congr 1
      omega

/-- Two byte lists are equal when they have the same length and agree at every
position read with default 0. -/
lemma list_eq_of_length_getD {f g : List Nat}
    (hlen : f.length = g.length) (h : ∀ j, f.getD j 0 = g.getD j 0) : f = g := by
  apply List.ext_getElem hlen
  intro i h1 h2
  have := h i
  rwa [List.getD_eq_getElem _ _ h1, List.getD_eq_getElem _ _ h2] at this

/-- Writing at the very end of the file appends the data. -/
lemma writeAt_length_append (f : List Nat) (d : List Nat) :
    writeAt f f.length d = f ++ d := by
  have h1 : f.drop (f.length + d.length) = [] :=
    List.drop_eq_nil_of_le (by omega)
  simp [writeAt, Nat.sub_self, h1]

/-- Re-writing the same data at the same offset changes nothing. -/
lemma writeAt_writeAt_same (f : List Nat) (o : Nat) (d : List Nat) :
    writeAt (writeAt f o d) o d = writeAt f o d := by
  apply list_eq_of_length_getD
  · simp only [length_writeAt]
    omega
  · intro j
    rw [getD_writeAt, getD_writeAt]
    by_cases h : o ≤ j ∧ j < o + d.length
    · rw [if_pos h, if_pos h]
    · rw [if_neg h, if_neg h]

/-- Positional writes to disjoint byte ranges commute. -/
lemma writeAt_comm_of_disjoint (f : List Nat) {o1 o2 : Nat} (d1 d2 : List Nat)
    (h : o1 + d1.length ≤ o2) :
    writeAt (writeAt f o1 d1) o2 d2 = writeAt (writeAt f o2 d2) o1 d1 := by
  apply list_eq_of_length_getD
  · simp only [length_writeAt]
    omega
  · intro j
    rw [getD_writeAt, getD_writeAt, getD_writeAt, getD_writeAt]
    by_cases h2 : o2 ≤ j ∧ j < o2 + d2.length
    · rw [if_pos h2, if_neg (by omega), if_pos h2]
    · rw [if_neg h2]
      by_cases h1 : o1 ≤ j ∧ j < o1 + d1.length
      · rw [if_pos h1, if_pos h1]
      · rw [if_neg h1, if_neg h1, if_neg h2]

/-! ## Block (local filesystem) realization (filesystemstore.go)

`os.MkdirAll` (as its effect on the directory set), `filepath.Dir`, the MD5
digest and `uuid.New` are external collaborators, passed as the parameters
`mk`, `dirOf`, `md5hex` and `newUUID`.  OS transport failures (permissions,
disk errors) are outside the model: the modelled filesystem calls succeed. -/

/-- `type BlockFSConfig struct{}` (filesystemstore.go:17). -/
structure BlockFSConfig where
deriving DecidableEq, Repr

/-- `type BlockFS struct{}` (filesystemstore.go:19). -/
structure BlockFS where
deriving DecidableEq, Repr

/-- `func (b *BlockFS) InitializeObjectUpload` (filesystemstore.go:110-121):
`os.MkdirAll(filepath.Dir(u.ObjectPath))`, then `os.Create(u.ObjectPath)`
(create-or-truncate to empty), result ID a fresh UUID.  The path is used
exactly as supplied. -/
def BlockFS.InitializeObjectUpload (dirOf : String → String)
    (mk : String → List String → List String) (newUUID : String)
    (fs : GoFS) (u : UploadConfig) : GoFS × UploadResult :=
  let fs1 : GoFS := ⟨fs.files, mk (dirOf u.ObjectPath) fs.dirs⟩
  let fs2 : GoFS := ⟨fun p => if p = u.ObjectPath then some [] else fs1.files p, fs1.dirs⟩
  (fs2, ⟨newUUID, 0, false⟩)

/-- `func (b *BlockFS) WriteChunk` (filesystemstore.go:123-137):
open `u.ObjectPath` with `O_WRONLY|O_CREATE` (creates an empty file when
missing, never truncates), then `f.WriteAt(u.Data, u.ChunkId*chunkSize)`.
`WriteAt` rejects a negative offset with an error and writes nothing;
`result.WriteSize` is set to `len(u.Data)` in either case.  The path is used
exactly as supplied. -/
def BlockFS.WriteChunk (fs : GoFS) (u : UploadConfig) :
    GoFS × UploadResult × Option GoError :=
  let f0 := (fs.files u.ObjectPath).getD []
  let off : Int := u.ChunkId * chunkSize
  let f1 := if 0 ≤ off then writeAt f0 off.toNat u.Data else f0
  let err : Option GoError := if 0 ≤ off then none else some GoError.negativeOffset
  (⟨fun p => if p = u.ObjectPath then some f1 else fs.files p, fs.dirs⟩,
    ⟨"", u.Data.length, false⟩, err)

/-- `func (b *BlockFS) CompleteObjectUpload` (filesystemstore.go:139-142):
`return nil` — no state is read or written. -/
def BlockFS.CompleteObjectUpload (fs : GoFS) (_u : CompletedObjectUploadConfig) :
    GoFS × Option GoError :=
  (fs, none)

/-- `func (b *BlockFS) PutObject` (filesystemstore.go:90-108).  With empty
data: only `os.MkdirAll(filepath.Dir(path))`, output `FileOperationOutput{}`.
Otherwise: open with `O_WRONLY|O_CREATE` (no truncation), `f.Write(data)` at
position 0, then `getFileMd5(f)` which reads from the file's current position
— i.e. it digests the bytes after the freshly written range. -/
def BlockFS.PutObject (md5hex : List Nat → String) (dirOf : String → String)
    (mk : String → List String → List String)
    (fs : GoFS) (path : String) (data : List Nat) :
    GoFS × Option FileOperationOutput × Option GoError :=
  if data.length = 0 then
    (⟨fs.files, mk (dirOf path) fs.dirs⟩, some ⟨""⟩, none)
  else
    let f0 := (fs.files path).getD []
    let f1 := writeAt f0 0 data
    (⟨fun p => if p = path then some f1 else fs.files p, fs.dirs⟩,
      some ⟨md5hex (f1.drop data.length)⟩, none)

/-- `func isDir(path string) bool` (filestore.go:164-170): `os.Stat` + mode
check; a stat failure yields `false`. -/
def isDirM (fs : GoFS) (path : String) : Bool :=
  fs.dirs.contains path

/-- Whether `q` lies at or under the directory `p` (`q = p` or `q` has the
prefix `p ++ "/"`). -/
def underDir (p q : String) : Bool :=
  q == p || (p.data ++ ['/']).isPrefixOf q.data

/-- `os.RemoveAll(p)`: delete the directory `p` and everything under it;
never fails on a missing path. -/
def removeAllM (fs : GoFS) (p : String) : GoFS :=
  ⟨fun q => if underDir p q then none else fs.files q,
    fs.dirs.filter (fun dd => !underDir p dd)⟩

/-- `os.Remove(p)` on a non-directory path: deletes the file, or fails with a
path error when nothing exists at `p`. -/
def removeM (fs : GoFS) (p : String) : GoFS × Option GoError :=
  match fs.files p with
  | some _ => (⟨fun q => if q = p then none else fs.files q, fs.dirs⟩, none)
  | none => (fs, some (GoError.pathError "remove" p))

/-- One iteration of the loop body of `BlockFS.DeleteObjects`
(filesystemstore.go:80-86): `if isDir(p) { err = os.RemoveAll(p) } else
{ err = os.Remove(p) }`. -/
def removeOne (fs : GoFS) (p : String) : GoFS × Option GoError :=
  if isDirM fs p then (removeAllM fs p, none) else removeM fs p

/-- `func (b *BlockFS) DeleteObjects(path ...string) error`
(filesystemstore.go:78-88): iterate over all paths, overwriting the single
`err` variable at each step, and return its final value. -/
def BlockFS.DeleteObjects (fs : GoFS) (paths : List String) : GoFS × Option GoError :=
  paths.foldl (fun acc p => removeOne acc.1 p) (fs, none)

/-! ## Object-store (S3) realization (s3store.go)

Each upload-protocol operation is modelled by the request value it hands to
the AWS SDK; the response and the network are external collaborators. -/

/-- `type S3FSConfig struct` (s3store.go:54-64). -/
structure S3FSConfig where
  S3Id : String
  S3Key : String
  S3Region : String
  S3Bucket : String
  S3Endpoint : String
  S3DisableSSL : Bool
  S3ForcePathStyle : Bool
  S3Prefix : String
  Mock : Bool
deriving DecidableEq, Repr

/-- The part of `S3FS` (s3store.go:67-71) the request builders read. -/
structure S3FS where
  config : S3FSConfig
deriving DecidableEq, Repr

/-- Go `strings.TrimPrefix(s, "/")`: remove one leading slash if present. -/
def trimPrefixSlash (s : String) : String :=
  match s.data with
  | '/' :: rest => String.mk rest
  | _ => s

/-- `s3.CreateMultipartUploadInput` as built by the code (bucket and key). -/
structure CreateMultipartUploadInput where
  bucket : String
  key : String
deriving DecidableEq, Repr

/-- `s3.UploadPartInput` as built by the code. -/
structure UploadPartInput where
  body : List Nat
  bucket : String
  key : String
  partNumber : Int
  uploadId : String
  contentLength : Int
deriving DecidableEq, Repr

/-- `s3.CompletedPart`: an ETag paired with a 1-based part number. -/
structure CompletedPart where
  eTag : String
  partNumber : Int
deriving DecidableEq, Repr

/-- `s3.CompleteMultipartUploadInput` as built by the code. -/
structure CompleteMultipartUploadInput where
  bucket : String
  key : String
  uploadId : String
  parts : List CompletedPart
deriving DecidableEq, Repr

/-- `func (s3fs *S3FS) InitializeObjectUpload` (s3store.go:194-210): the
`CreateMultipartUploadInput` it submits. -/
def S3FS.InitializeObjectUpload (s3fs : S3FS) (u : UploadConfig) :
    CreateMultipartUploadInput :=
  ⟨s3fs.config.S3Bucket, trimPrefixSlash u.ObjectPath⟩

/-- `func (s3fs *S3FS) WriteChunk` (s3store.go:212-235): the
`UploadPartInput` it submits; `partNumber := u.ChunkId + 1` (s3store.go:216,
"aws chunks are 1 to n, our chunks are 0 referenced"). -/
def S3FS.WriteChunk (s3fs : S3FS) (u : UploadConfig) : UploadPartInput :=
  ⟨u.Data, s3fs.config.S3Bucket, trimPrefixSlash u.ObjectPath,
    u.ChunkId + 1, u.UploadId, (u.Data.length : Int)⟩

/-- The loop of `S3FS.CompleteObjectUpload` (s3store.go:242-247), started at
running index `i`: `for i, cuID := range u.ChunkUploadIds { append ⟨cuID, i+1⟩ }`. -/
def completedPartsFrom : Nat → List String → List CompletedPart
  | _, [] => []
  | i, cuID :: rest => ⟨cuID, (i : Int) + 1⟩ :: completedPartsFrom (i + 1) rest

/-- The completed-part list built by `S3FS.CompleteObjectUpload`:
manifest entry at sequence position `i` paired with part number `i + 1`. -/
def s3CompletedParts (ids : List String) : List CompletedPart :=
  completedPartsFrom 0 ids

/-- `func (s3fs *S3FS) CompleteObjectUpload` (s3store.go:237-258): the
`CompleteMultipartUploadInput` it submits. -/
def S3FS.CompleteObjectUpload (s3fs : S3FS) (u : CompletedObjectUploadConfig) :
    CompleteMultipartUploadInput :=
  ⟨s3fs.config.S3Bucket, trimPrefixSlash u.ObjectPath, u.UploadId,
    s3CompletedParts u.ChunkUploadIds⟩

/-! ## Store factory (filestore.go:87-119) -/

/-- The AWS client configuration assembled by `NewFileStore` for the S3
variant (`aws.NewConfig().WithRegion(...).WithCredentials(...)` plus the
mock-only options). -/
structure AWSClientConfig where
  region : String
  accessKeyId : String
  secretAccessKey : String
  disableSSL : Option Bool
  forcePathStyle : Option Bool
  endpoint : Option String
deriving DecidableEq, Repr

/-- The `aws.Config` value built in the `S3FSConfig` branch of `NewFileStore`
(filestore.go:95-103). -/
def buildAWSClientConfig (c : S3FSConfig) : AWSClientConfig :=
  let base : AWSClientConfig := ⟨c.S3Region, c.S3Id, c.S3Key, none, none, none⟩
  if c.Mock then
    ⟨base.region, base.accessKeyId, base.secretAccessKey,
      some c.S3DisableSSL, some c.S3ForcePathStyle,
      if c.S3Endpoint ≠ "" then some c.S3Endpoint else none⟩
  else base

/-- The `config interface{}` argument of `NewFileStore`: either one of the
two recognized configuration types, or any other value (summarised by the
string Go would print for it in the error message). -/
inductive FileStoreConfigArg where
  | ofBlock (c : BlockFSConfig)
  | ofS3 (c : S3FSConfig)
  | ofOther (printed : String)
deriving DecidableEq, Repr

/-- The `S3FS` value created by the factory (session handle, config,
`maxKeys: 1000`). -/
structure S3FSStore where
  session : String
  config : S3FSConfig
  maxKeys : Int
deriving DecidableEq, Repr

/-- The `FileStore` interface value returned by the factory. -/
inductive FileStoreValue where
  | ofBlockFS (b : BlockFS)
  | ofS3FS (s : S3FSStore)
deriving DecidableEq, Repr

/-- `func NewFileStore(config interface{}) (FileStore, error)`
(filestore.go:87-119).  `newSession` models `session.NewSession`
(an external collaborator that may fail).  `Except.error` is Go's
`(nil, err)` return: no store value exists alongside an error. -/
def NewFileStore (newSession : AWSClientConfig → Except String String)
    (config : FileStoreConfigArg) : Except String FileStoreValue :=
  match config with
  | .ofBlock _ => .ok (.ofBlockFS ⟨⟩)
  | .ofS3 s3config =>
    match newSession (buildAWSClientConfig s3config) with
    | .error e => .error e
    | .ok sess => .ok (.ofS3FS ⟨sess, s3config, 1000⟩)
  | .ofOther printed =>
    .error ("Invalid File System System Type Configuration: " ++ printed)

/-! ## The block upload session (initialize → writes → complete) -/

/-- A full block-store upload session: `InitializeObjectUpload` for `path`,
then one `WriteChunk` per index in `order` (chunk `i` carrying `d i`), then
`CompleteObjectUpload`.  Returns the final filesystem state. -/
def blockUploadSession (dirOf : String → String)
    (mk : String → List String → List String) (newUUID : String)
    (fs : GoFS) (path : String) (d : Nat → List Nat) (order : List Nat) : GoFS :=
  let fs1 := (BlockFS.InitializeObjectUpload dirOf mk newUUID fs ⟨path, 0, "", []⟩).1
  let fs2 := order.foldl
    (fun (s : GoFS) (i : Nat) =>
      (BlockFS.WriteChunk s ⟨path, (i : Int), newUUID, d i⟩).1) fs1
  (BlockFS.CompleteObjectUpload fs2 ⟨newUUID, path, []⟩).1

/-- Concatenation of the chunk data `d 0 ++ d 1 ++ ⋯ ++ d (n-1)` in ascending
chunk-index order. -/
def concatChunks (d : Nat → List Nat) : Nat → List Nat
  | 0 => []
  | n + 1 => concatChunks d n ++ d n

lemma chunkSize_eq : chunkSize = ((10485760 : Nat) : Int) := by
  norm_num [chunkSize]

lemma chunkSize_toNat_eq : chunkSize.toNat = 10485760 := by
  rw [chunkSize_eq]
  rfl

lemma mul_chunkSize_toNat (i : Nat) :
    ((i : Int) * chunkSize).toNat = i * chunkSize.toNat := by
  rw [chunkSize_eq, ← Int.natCast_mul, Int.toNat_ofNat, Int.toNat_ofNat]

lemma mul_chunkSize_nonneg (i : Nat) : (0 : Int) ≤ (i : Int) * chunkSize := by
  rw [chunkSize_eq]
  positivity

/-- The `GoFS`-level fold of `WriteChunk` calls projects onto a pure fold of
positional writes on the bytes of the single target file. -/
lemma foldl_writeChunk_files (path gid : String) (d : Nat → List Nat) :
    ∀ (order : List Nat) (s : GoFS) (c : List Nat), s.files path = some c →
      ((order.foldl
          (fun (s : GoFS) (i : Nat) =>
            (BlockFS.WriteChunk s ⟨path, (i : Int), gid, d i⟩).1) s).files path)
        = some (order.foldl (fun f i => writeAt f (i * chunkSize.toNat) (d i)) c) := by
  intro order
  induction order with
  | nil => intro s c h; simpa using h
  | cons i rest ih =>
    intro s c h
    simp only [List.foldl_cons]
    apply ih
    simp only [BlockFS.WriteChunk, h, Option.getD_some, if_pos (mul_chunkSize_nonneg i),
      if_pos rfl, mul_chunkSize_toNat, ite_true]

/-- Writing the chunks in ascending index order assembles exactly the
concatenation, each write landing at the current end of file. -/
lemma foldl_writeAt_range (d : Nat → List Nat) (N : Nat)
    (hfull : ∀ i, i + 1 < N → (d i).length = chunkSize.toNat) :
    ∀ n, n ≤ N →
      (List.range n).foldl (fun f i => writeAt f (i * chunkSize.toNat) (d i)) []
          = concatChunks d n
        ∧ (n < N → (concatChunks d n).length = n * chunkSize.toNat) := by
  intro n
  induction n with
  | zero => exact fun _ => ⟨rfl, fun _ => rfl⟩
  | succ n ih =>
    intro hn1
    have hn : n ≤ N := Nat.le_of_succ_le hn1
    have hnN : n < N := Nat.lt_of_succ_le hn1
    obtain ⟨ihfold, ihlen⟩ := ih hn
    have hlen : (concatChunks d n).length = n * chunkSize.toNat := ihlen hnN
    constructor
    · rw [List.range_succ, List.foldl_append, ihfold]
      simp only [List.foldl_cons, List.foldl_nil]
      rw [← hlen, writeAt_length_append]
      rfl
    · intro hn1N
      have hdn : (d n).length = chunkSize.toNat := hfull n hn1N
      show (concatChunks d n ++ d n).length = (n + 1) * chunkSize.toNat
      rw [List.length_append, hlen, hdn]
      ring

/-- Positional writes of distinct chunk indices below `N` commute: all chunks
except possibly the last are full, so the byte ranges are disjoint. -/
lemma writeAt_chunk_comm (d : Nat → List Nat) (N : Nat)
    (hfull : ∀ i, i + 1 < N → (d i).length = chunkSize.toNat)
    {x y : Nat} (hx : x < N) (hy : y < N) (z : List Nat) :
    writeAt (writeAt z (x * chunkSize.toNat) (d x)) (y * chunkSize.toNat) (d y)
      = writeAt (writeAt z (y * chunkSize.toNat) (d y)) (x * chunkSize.toNat) (d x) := by
  rcases Nat.lt_trichotomy x y with hxy | hxy | hxy
  · have hdx : (d x).length = chunkSize.toNat := hfull x (by omega)
    apply writeAt_comm_of_disjoint
    rw [hdx]
    calc x * chunkSize.toNat + chunkSize.toNat
        = (x + 1) * chunkSize.toNat := by ring
      _ ≤ y * chunkSize.toNat := Nat.mul_le_mul_right _ (by omega)
  · subst hxy; rfl
  · have hdy : (d y).length = chunkSize.toNat := hfull y (by omega)
    symm
    apply writeAt_comm_of_disjoint
    rw [hdy]
    calc y * chunkSize.toNat + chunkSize.toNat
        = (y + 1) * chunkSize.toNat := by ring
      _ ≤ x * chunkSize.toNat := Nat.mul_le_mul_right _ (by omega)

lemma completedPartsFrom_length (ids : List String) :
    ∀ n, (completedPartsFrom n ids).length = ids.length := by
  induction ids with
  | nil => intro n; rfl
  | cons x rest ih =>
    intro n
    simp only [completedPartsFrom, List.length_cons, ih]

lemma completedPartsFrom_getD (ids : List String) :
    ∀ n i, i < ids.length →
      (completedPartsFrom n ids).getD i ⟨"", 0⟩
        = ⟨ids.getD i "", ((n + i : Nat) : Int) + 1⟩ := by
  induction ids with
  | nil => intro n i h; simp at h
  | cons x rest ih =>
    intro n i h
    cases i with
    | zero => simp [completedPartsFrom]
    | succ i =>
      simp only [completedPartsFrom, List.getD_cons_succ]
      rw [ih (n + 1) i (by simpa using h)]
      congr 2
      omega

/-! ## Claim theorems -/

/-- Claim C1: for the block realization, every valid upload session
(initialize, then one `WriteChunk` per index `0..N-1` in any order, each chunk
of size `chunkSize` except possibly the highest-indexed one, then complete)
leaves the file at the object path equal to the concatenation of the chunk
data in ascending chunk-index order (each `WriteChunk` having placed chunk `i`
at byte offset `i * chunkSize`). -/
theorem block_session_assembles_concatenation
    (dirOf : String → String) (mk : String → List String → List String)
    (newUUID : String) (fs : GoFS) (path : String) (d : Nat → List Nat)
    (N : Nat) (order : List Nat)
    (horder : order.Perm (List.range N))
    (hfull : ∀ i, i + 1 < N → (d i).length = chunkSize.toNat)
    (_hlast : 0 < N → (d (N - 1)).length ≤ chunkSize.toNat) :
    (blockUploadSession dirOf mk newUUID fs path d order).files path
      = some (concatChunks d N) := by
  have hinit :
      ((BlockFS.InitializeObjectUpload dirOf mk newUUID fs ⟨path, 0, "", []⟩).1).files path
        = some [] := by
    simp [BlockFS.InitializeObjectUpload]
  have hproj := foldl_writeChunk_files path newUUID d order
    (BlockFS.InitializeObjectUpload dirOf mk newUUID fs ⟨path, 0, "", []⟩).1 [] hinit
  have hsession :
      (blockUploadSession dirOf mk newUUID fs path d order).files path
        = some (order.foldl (fun f i => writeAt f (i * chunkSize.toNat) (d i)) []) := by
    exact hproj
  rw [hsession]
  congr 1
  have hcomm : ∀ x ∈ order, ∀ y ∈ order, ∀ z : List Nat,
      writeAt (writeAt z (x * chunkSize.toNat) (d x)) (y * chunkSize.toNat) (d y)
        = writeAt (writeAt z (y * chunkSize.toNat) (d y)) (x * chunkSize.toNat) (d x) := by
    intro x hx y hy z
    have hxN : x < N := List.mem_range.mp (horder.subset hx)
    have hyN : y < N := List.mem_range.mp (horder.subset hy)
    exact writeAt_chunk_comm d N hfull hxN hyN z
  rw [horder.foldl_eq' hcomm []]
  exact (foldl_writeAt_range d N hfull N (Nat.le_refl N)).1

/-- Claim C1 witness: a concrete one-chunk session (`N = 1`, chunk 0 of three
bytes, order `[0]`) satisfies the hypotheses, and the assembled file is the
chunk itself. -/
theorem block_session_assembles_concatenation_witness :
    ([0] : List Nat).Perm (List.range 1)
      ∧ (∀ i : Nat, i + 1 < 1 → ([1, 2, 3] : List Nat).length = chunkSize.toNat)
      ∧ (0 < 1 → ([1, 2, 3] : List Nat).length ≤ chunkSize.toNat)
      ∧ (blockUploadSession (fun _ => "") (fun _ ds => ds) "uuid-1"
            ⟨fun _ => none, []⟩ "f" (fun _ => [1, 2, 3]) [0]).files "f"
          = some (concatChunks (fun _ => [1, 2, 3]) 1) := by
  have hr1 : List.range 1 = [0] := by simp [List.range_succ]
  refine ⟨hr1 ▸ List.Perm.refl [0], fun i h => absurd h (by omega),
    fun _ => by decide, ?_⟩
  exact block_session_assembles_concatenation (fun _ => "") (fun _ ds => ds) "uuid-1"
    ⟨fun _ => none, []⟩ "f" (fun _ => [1, 2, 3]) 1 [0]
    (hr1 ▸ List.Perm.refl [0])
    (fun i h => absurd h (by omega))
    (fun _ => by decide)

/-- Claim C2: for the object-store realization, `WriteChunk` sends the backend
a part number equal to the caller's zero-based `ChunkId` plus one. -/
theorem s3_writeChunk_partNumber (s3fs : S3FS) (u : UploadConfig) :
    (S3FS.WriteChunk s3fs u).partNumber = u.ChunkId + 1 :=
  rfl

/-- Claim C3: for the object-store realization, the completion request pairs
the manifest identifier at zero-based sequence position `i` with part number
`i + 1`, preserving the manifest's order; the part number comes only from the
sequence position. -/
theorem s3_complete_pairs_sequence_position (s3fs : S3FS)
    (u : CompletedObjectUploadConfig) (i : Nat)
    (h : i < u.ChunkUploadIds.length) :
    (S3FS.CompleteObjectUpload s3fs u).parts.length = u.ChunkUploadIds.length
      ∧ (S3FS.CompleteObjectUpload s3fs u).parts.getD i ⟨"", 0⟩
          = ⟨u.ChunkUploadIds.getD i "", (i : Int) + 1⟩ := by
  constructor
  · exact completedPartsFrom_length u.ChunkUploadIds 0
  · have := completedPartsFrom_getD u.ChunkUploadIds 0 i h
    simpa using this

/-- Claim C3 witness: a concrete two-entry manifest; position 1 is paired with
part number 2 and its own identifier. -/
theorem s3_complete_pairs_sequence_position_witness :
    (1 < (["etag-a", "etag-b"] : List String).length)
      ∧ ((S3FS.CompleteObjectUpload ⟨⟨"", "", "", "b", "", false, false, "", false⟩⟩
            ⟨"up", "k", ["etag-a", "etag-b"]⟩).parts.length = 2
      ∧ (S3FS.CompleteObjectUpload ⟨⟨"", "", "", "b", "", false, false, "", false⟩⟩
            ⟨"up", "k", ["etag-a", "etag-b"]⟩).parts.getD 1 ⟨"", 0⟩
          = ⟨"etag-b", (1 : Int) + 1⟩) := by
  refine ⟨by decide, ?_⟩
  exact s3_complete_pairs_sequence_position
    ⟨⟨"", "", "", "b", "", false, false, "", false⟩⟩
    ⟨"up", "k", ["etag-a", "etag-b"]⟩ 1 (by decide)

/-- Claim C4 counterexample: the claim says the block realization also strips
a leading separator before using the path as a filename.  It does not: with
`ObjectPath = "/a"`, `InitializeObjectUpload` creates the file under the
verbatim key `"/a"` and no file exists at the stripped key `"a"`. -/
theorem block_initialize_does_not_strip_leading_separator :
    ((BlockFS.InitializeObjectUpload (fun _ => "") (fun _ ds => ds) "uuid-2"
        ⟨fun _ => none, []⟩ ⟨"/a", 0, "", []⟩).1).files (trimPrefixSlash "/a") = none
      ∧ ((BlockFS.InitializeObjectUpload (fun _ => "") (fun _ ds => ds) "uuid-2"
        ⟨fun _ => none, []⟩ ⟨"/a", 0, "", []⟩).1).files "/a" = some [] := by
  constructor <;> decide

/-- Claim C4 amended: the object-store realization strips one leading path
separator from the supplied object path in all three upload operations before
using it as the backend key; the block realization uses the supplied path
verbatim as the filename (no stripping) in `InitializeObjectUpload` and
`WriteChunk`. -/
theorem upload_ops_path_handling (s3fs : S3FS) (u : UploadConfig)
    (v : CompletedObjectUploadConfig) (dirOf : String → String)
    (mk : String → List String → List String) (newUUID : String) (fs : GoFS) :
    (S3FS.InitializeObjectUpload s3fs u).key = trimPrefixSlash u.ObjectPath
      ∧ (S3FS.WriteChunk s3fs u).key = trimPrefixSlash u.ObjectPath
      ∧ (S3FS.CompleteObjectUpload s3fs v).key = trimPrefixSlash v.ObjectPath
      ∧ ((BlockFS.InitializeObjectUpload dirOf mk newUUID fs u).1).files
          = (fun p => if p = u.ObjectPath then some [] else fs.files p)
      ∧ ((BlockFS.WriteChunk fs u).1).files
          = (fun p => if p = u.ObjectPath
              then some (if 0 ≤ u.ChunkId * chunkSize
                then writeAt ((fs.files u.ObjectPath).getD [])
                  (u.ChunkId * chunkSize).toNat u.Data
                else (fs.files u.ObjectPath).getD [])
              else fs.files p) :=
  ⟨rfl, rfl, rfl, rfl, rfl⟩

/-- Claim C5: for the block realization, `CompleteObjectUpload` returns no
error for every input and changes no state: a no-op that never fails. -/
theorem block_complete_is_noop (fs : GoFS) (u : CompletedObjectUploadConfig) :
    BlockFS.CompleteObjectUpload fs u = (fs, none) :=
  rfl

/-- Claim C6: for the block realization, `WriteChunk` is idempotent — invoking
it again with the same index and the same data leaves every file's byte
content identical to the content after the first call. -/
theorem block_writeChunk_idempotent (fs : GoFS) (u : UploadConfig) :
    ((BlockFS.WriteChunk (BlockFS.WriteChunk fs u).1 u).1).files
      = ((BlockFS.WriteChunk fs u).1).files := by
  funext p
  by_cases hp : p = u.ObjectPath
  · subst hp
    by_cases hoff : (0 : Int) ≤ u.ChunkId * chunkSize
    · simp [BlockFS.WriteChunk, hoff, writeAt_writeAt_same]
    · simp [BlockFS.WriteChunk, hoff]
  · simp [BlockFS.WriteChunk, hp]

/-- Claim C7: `NewFileStore` on a configuration value that is neither a
`BlockFSConfig` nor an `S3FSConfig` returns the configuration error and no
store; on a `BlockFSConfig` it returns a block store and no error. -/
theorem newFileStore_dispatch (newSession : AWSClientConfig → Except String String)
    (printed : String) (c : BlockFSConfig) :
    NewFileStore newSession (.ofOther printed)
        = .error ("Invalid File System System Type Configuration: " ++ printed)
      ∧ NewFileStore newSession (.ofBlock c) = .ok (.ofBlockFS ⟨⟩) :=
  ⟨rfl, rfl⟩

/-- Claim C8: every path built by the path-building helper (`buildUrl`, and
`PathParts.ToPath` / `PathParts.ToFilePath` on top of it, which apply
`sanitizePath` last) contains no `".."` substring. -/
theorem buildUrl_no_dotdot (urlparts : List String) (pathType : PATHTYPE)
    (pp : PathParts) (additionalParts : List String) :
    hasDD (buildUrl urlparts pathType).data = false
      ∧ hasDD (pp.ToPath additionalParts).data = false
      ∧ hasDD (pp.ToFilePath additionalParts).data = false :=
  ⟨hasDD_replaceDotDot _, hasDD_replaceDotDot _, hasDD_replaceDotDot _⟩

/-- Claim C9: for the block realization, `PutObject` with an empty data slice
creates or truncates no file: it only runs `MkdirAll` on the path's parent
directory and returns a success output whose `Md5` field is empty. -/
theorem putObject_empty_data (md5hex : List Nat → String) (dirOf : String → String)
    (mk : String → List String → List String) (fs : GoFS) (path : String) :
    BlockFS.PutObject md5hex dirOf mk fs path []
      = (⟨fs.files, mk (dirOf path) fs.dirs⟩, some ⟨""⟩, none) :=
  rfl

/-- Claim C10: for the block realization, `DeleteObjects` attempts removal of
every path and its result (state and error alike) is the result of removing
the last path from the state left by all earlier removals — any earlier error
is discarded. -/
theorem deleteObjects_keeps_last_error (fs : GoFS) (ps : List String) (p : String) :
    BlockFS.DeleteObjects fs (ps ++ [p])
      = removeOne (BlockFS.DeleteObjects fs ps).1 p := by
  simp [BlockFS.DeleteObjects, List.foldl_append]

end Filestore
